import Mathlib

/-!
Shallow embedding of the decision layer of the churn_ev repository
(src/decision/costs.py, src/decision/policy.py, src/decision/thresholds.py).

Numeric values (Python floats) are modelled as exact rationals (ℚ); labels
and confusion counts as naturals.  Fallible code (a `raise` in Python or in
the sklearn calls it makes) is modelled with `Except String`.
-/

namespace ChurnEV

/-- Business cost matrix for churn decisions
(`CostConfig` in src/decision/costs.py), a frozen dataclass whose four
fields default to FN=5.0, FP=1.0, TP_intervention=0.5, TN=0.0. -/
structure CostConfig where
  FN_cost : ℚ := 5
  FP_cost : ℚ := 1
  TP_intervention_cost : ℚ := 1/2
  TN_cost : ℚ := 0
deriving DecidableEq, Repr

/-- The persisted mapping form of a `CostConfig`: `save_costs` passes the
dataclass through `dataclasses.asdict`, which lists the fields in
declaration order.  A JSON object is modelled as an association list. -/
def CostConfig.toDict (c : CostConfig) : List (String × ℚ) :=
  [("FN_cost", c.FN_cost), ("FP_cost", c.FP_cost),
   ("TP_intervention_cost", c.TP_intervention_cost), ("TN_cost", c.TN_cost)]

/-- `CostConfig.from_dict` in src/decision/costs.py: reads each of the four
keys with `d.get(key, default)`, so a missing key falls back to the field's
default and unknown extra keys are simply never consulted; the function is
total (it cannot fail). -/
def CostConfig.from_dict (d : List (String × ℚ)) : CostConfig :=
  { FN_cost := (d.lookup "FN_cost").getD 5
    FP_cost := (d.lookup "FP_cost").getD 1
    TP_intervention_cost := (d.lookup "TP_intervention_cost").getD (1/2)
    TN_cost := (d.lookup "TN_cost").getD 0 }

/-- The `{action, ev}` dict returned by the policy functions in
src/decision/policy.py. -/
structure Decision where
  action : String
  ev : ℚ
deriving DecidableEq, Repr

/-- `_unit_expected_value_intervene` in src/decision/policy.py. -/
def unit_expected_value_intervene (costs : CostConfig) : ℚ :=
  -costs.TP_intervention_cost

/-- `_unit_expected_value_no_action` in src/decision/policy.py. -/
def unit_expected_value_no_action : ℚ := 0

/-- `decide_single_threshold` in src/decision/policy.py: intervene iff
`p >= thr`. -/
def decide_single_threshold (p thr : ℚ) (costs : CostConfig) : Decision :=
  if p ≥ thr then
    { action := "intervene", ev := unit_expected_value_intervene costs }
  else
    { action := "no_action", ev := unit_expected_value_no_action }

/-- `decide_tiered` in src/decision/policy.py: tests `p >= t_high` first,
then `p >= t_low`, else no action.  The ordering `t_low <= t_high` is not
enforced. -/
def decide_tiered (p t_low t_high : ℚ) (costs_low costs_high : CostConfig) :
    Decision :=
  if p ≥ t_high then
    { action := "expensive_intervention",
      ev := unit_expected_value_intervene costs_high }
  else if p ≥ t_low then
    { action := "cheap_intervention",
      ev := unit_expected_value_intervene costs_low }
  else
    { action := "no_action", ev := unit_expected_value_no_action }

/-- `apply_decision_batch` in src/decision/policy.py: builds the `action`
column with `np.where(probs >= thr, "intervene", "no_action")` and the `ev`
column with `np.where(probs >= thr, -costs.TP_intervention_cost, 0.0)`,
returning one `(prob, action, ev)` row per input probability in order. -/
def apply_decision_batch (probs : List ℚ) (thr : ℚ) (costs : CostConfig) :
    List (ℚ × String × ℚ) :=
  probs.map (fun p =>
    (p, if p ≥ thr then "intervene" else "no_action",
        if p ≥ thr then -costs.TP_intervention_cost else 0))

/-- One row of the sweep (`ThresholdResult` in src/decision/thresholds.py /
one row of the DataFrame built by `sweep_thresholds`). -/
structure ThresholdResult where
  threshold : ℚ
  expected_value : ℚ
  tn : ℕ
  fp : ℕ
  fn : ℕ
  tp : ℕ
deriving DecidableEq, Repr

/-- `sklearn.metrics.confusion_matrix(y_true, y_pred, labels=[0, 1]).ravel()`
as called from `expected_value_for_threshold`: each cell counts the pairs
with the given (true, predicted) values.  A class absent from the sample
contributes zero-filled cells, and on an empty sample sklearn's explicit
`y_true.size == 0` branch returns the all-zero matrix, which coincides with
counting over the empty list. -/
def confusion_counts (y_true y_pred : List ℕ) : ℕ × ℕ × ℕ × ℕ :=
  let pairs := y_true.zip y_pred
  (pairs.countP (fun q => q.1 == 0 && q.2 == 0),
   pairs.countP (fun q => q.1 == 0 && q.2 == 1),
   pairs.countP (fun q => q.1 == 1 && q.2 == 0),
   pairs.countP (fun q => q.1 == 1 && q.2 == 1))

/-- The pure computation inside `expected_value_for_threshold`
(src/decision/thresholds.py): binarize `y_pred = (y_prob >= thr).astype(int)`,
take the confusion counts with labels `[0, 1]`, and return
`(-total_cost, (tn, fp, fn, tp))`. -/
def evaluate (y_true : List ℕ) (y_prob : List ℚ) (thr : ℚ)
    (costs : CostConfig) : ℚ × (ℕ × ℕ × ℕ × ℕ) :=
  let y_pred := y_prob.map (fun p => if p ≥ thr then 1 else 0)
  let c := confusion_counts y_true y_pred
  let tn := c.1
  let fp := c.2.1
  let fn := c.2.2.1
  let tp := c.2.2.2
  let total_cost := (tp : ℚ) * costs.TP_intervention_cost
    + (fp : ℚ) * costs.FP_cost + (fn : ℚ) * costs.FN_cost
    + (tn : ℚ) * costs.TN_cost
  (-total_cost, (tn, fp, fn, tp))

/-- `expected_value_for_threshold` in src/decision/thresholds.py.  Inputs
of different lengths make sklearn's `check_consistent_length` raise; on an
empty sample sklearn's `y_true.size == 0` branch returns the zero matrix
(which coincides with counting over the empty list); a non-empty sample
containing neither of the labels `[0, 1]` makes sklearn raise; otherwise
the result is the pure `evaluate`. -/
def expected_value_for_threshold (y_true : List ℕ) (y_prob : List ℚ)
    (thr : ℚ) (costs : CostConfig) :
    Except String (ℚ × (ℕ × ℕ × ℕ × ℕ)) :=
  if y_true.length = y_prob.length then
    if y_true = [] then
      .ok (evaluate y_true y_prob thr costs)
    else if 0 ∈ y_true ∨ 1 ∈ y_true then
      .ok (evaluate y_true y_prob thr costs)
    else
      .error "At least one label specified must be in y_true"
  else
    .error "Found input variables with inconsistent numbers of samples"

/-- Specification-side count of one confusion cell, written the way the
spec states it: the number of indices `i` whose true label is `label` and
whose prediction (`y_prob[i] >= thr`, the closed lower bound) agrees with
`act`. -/
def count_outcome (y_true : List ℕ) (y_prob : List ℚ) (thr : ℚ)
    (label : ℕ) (act : Bool) : ℕ :=
  ((List.range y_true.length).filter (fun i =>
      y_true.getD i 2 == label && (decide (thr ≤ y_prob.getD i 0) == act))).length

/-- `np.arange(start, stop, step)`: for nonzero `step` the result has
`max(ceil((stop - start) / step), 0)` elements, element `k` being
`start + k * step`. -/
def arange (start stop step : ℚ) : List ℚ :=
  (List.range (⌈(stop - start) / step⌉.toNat)).map
    (fun k : ℕ => start + (k : ℚ) * step)

/-- `sweep_thresholds` in src/decision/thresholds.py: evaluates
`expected_value_for_threshold` at every point of
`np.arange(0.0, 1.0 + step, step)` and collects the rows in grid order. -/
def sweep_thresholds (y_true : List ℕ) (y_prob : List ℚ)
    (costs : CostConfig) (step : ℚ) : Except String (List ThresholdResult) :=
  (arange 0 (1 + step) step).mapM (fun t =>
    (expected_value_for_threshold y_true y_prob t costs).map
      (fun r =>
        { threshold := t, expected_value := r.1, tn := r.2.1,
          fp := r.2.2.1, fn := r.2.2.2.1, tp := r.2.2.2.2 }))

/-- The update step of `df["expected_value"].idxmax()` as used by
`choose_optimal_threshold`: a later row replaces the current best only
when its expected value is strictly greater, so the first maximal row
wins. -/
def pick_best (best x : ThresholdResult) : ThresholdResult :=
  if best.expected_value < x.expected_value then x else best

/-- `choose_optimal_threshold` in src/decision/thresholds.py: raises on an
empty curve, otherwise `df["expected_value"].idxmax()` selects the first
row attaining the maximum expected value. -/
def choose_optimal_threshold (curve : List ThresholdResult) :
    Except String ThresholdResult :=
  match curve with
  | [] => .error "df_curve is empty"
  | r :: rs => .ok (rs.foldl pick_best r)

/-- The row `sweep_thresholds` appends for one grid point `t` when the
evaluator succeeds: the dict built in its loop body, with the fields of
`evaluate` unpacked. -/
def sweep_row (y_true : List ℕ) (y_prob : List ℚ) (costs : CostConfig)
    (t : ℚ) : ThresholdResult :=
  { threshold := t
    expected_value := (evaluate y_true y_prob t costs).1
    tn := (evaluate y_true y_prob t costs).2.1
    fp := (evaluate y_true y_prob t costs).2.2.1
    fn := (evaluate y_true y_prob t costs).2.2.2.1
    tp := (evaluate y_true y_prob t costs).2.2.2.2 }

/-! ### Helper lemmas -/

/-- In the `Except` monad, `List.mapM.loop` over a list whose every element
maps to `.ok` succeeds with the accumulated results. -/
theorem except_mapM_loop {α β : Type} (f : α → Except String β) (g : α → β)
    (hf : ∀ a, f a = .ok (g a)) :
    ∀ (l : List α) (acc : List β),
      List.mapM.loop f l acc = .ok (acc.reverse ++ l.map g) := by
  intro l
  induction l with
  | nil =>
    intro acc
    have h0 : List.mapM.loop f [] acc = .ok acc.reverse := rfl
    rw [h0]
    simp
  | cons a t ih =>
    intro acc
    have h1 : List.mapM.loop f (a :: t) acc
        = (f a) >>= fun b => List.mapM.loop f t (b :: acc) := rfl
    rw [h1, hf a]
    have h2 : ((Except.ok (g a) : Except String β) >>=
          fun b => List.mapM.loop f t (b :: acc))
        = List.mapM.loop f t (g a :: acc) := rfl
    rw [h2, ih]
    simp

/-- `List.mapM` in the `Except` monad over a list whose every element maps
to `.ok` succeeds with the mapped list. -/
theorem except_mapM_ok {α β : Type} (f : α → Except String β) (g : α → β)
    (hf : ∀ a, f a = .ok (g a)) (l : List α) : l.mapM f = .ok (l.map g) := by
  have h := except_mapM_loop f g hf l []
  simpa [List.mapM] using h

/-- For equal-length inputs whose labels lie in `{0, 1}` (including the
empty input) the evaluator succeeds with the pure `evaluate` result. -/
theorem expected_value_ok (y_true : List ℕ) (y_prob : List ℚ) (thr : ℚ)
    (costs : CostConfig) (hlen : y_true.length = y_prob.length)
    (hlab : ∀ x ∈ y_true, x = 0 ∨ x = 1) :
    expected_value_for_threshold y_true y_prob thr costs
      = .ok (evaluate y_true y_prob thr costs) := by
  unfold expected_value_for_threshold
  rw [if_pos hlen]
  cases y_true with
  | nil => rw [if_pos rfl]
  | cons a t =>
    rw [if_neg (by simp)]
    rcases hlab a (by simp) with h | h
    · rw [if_pos (Or.inl (by rw [← h]; exact List.mem_cons_self a t))]
    · rw [if_pos (Or.inr (by rw [← h]; exact List.mem_cons_self a t))]

/-- Counting pairs of a zip against a mapped second component equals
counting indices of the range, for pointwise-related predicates. -/
theorem countP_zip_binarize (f : ℚ → ℕ) (pc : ℕ → ℕ → Bool)
    (p : ℕ → ℚ → Bool) (hrel : ∀ a x, pc a (f x) = p a x) :
    ∀ (ys : List ℕ) (qs : List ℚ), ys.length = qs.length →
    (ys.zip (qs.map f)).countP (fun q => pc q.1 q.2) =
      ((List.range ys.length).filter
        (fun i => p (ys.getD i 2) (qs.getD i 0))).length := by
  intro ys
  induction ys with
  | nil => intro qs h; simp
  | cons a t ih =>
    intro qs h
    cases qs with
    | nil => simp at h
    | cons b s =>
      have h' : t.length = s.length := by simpa using h
      have hmapfilter :
          (List.filter (fun i => p ((a :: t).getD i 2) ((b :: s).getD i 0))
              (List.map Nat.succ (List.range t.length)))
            = List.map Nat.succ
              (List.filter (fun i => p (t.getD i 2) (s.getD i 0))
                (List.range t.length)) := by
        rw [List.filter_map]
        have hfun : ((fun i => p ((a :: t).getD i 2) ((b :: s).getD i 0))
              ∘ Nat.succ)
            = fun i => p (t.getD i 2) (s.getD i 0) := by
          funext i
          simp [Function.comp, List.getD_cons_succ]
        rw [hfun]
      rw [List.map_cons, List.zip_cons_cons, List.countP_cons, ih s h']
      rw [List.length_cons, List.range_succ_eq_map, List.filter_cons]
      rw [hmapfilter]
      by_cases hpb : p a b
      · have hab : pc a (f b) = true := by rw [hrel]; exact hpb
        simp [hab, hpb, List.getD_cons_zero]
      · have hab : pc a (f b) = false := by
          rw [hrel]
          exact Bool.not_eq_true _ ▸ eq_false_of_ne_true (by simpa using hpb)
        have hpb' : p a b = false := by simpa using hpb
        simp [hab, hpb', List.getD_cons_zero]

/-- Four pairwise-disjoint, jointly-exhaustive counts over a list of pairs
with components in `{0, 1}` partition its length. -/
theorem countP_pairs_partition :
    ∀ (l : List (ℕ × ℕ)), (∀ q ∈ l, q.1 = 0 ∨ q.1 = 1) →
      (∀ q ∈ l, q.2 = 0 ∨ q.2 = 1) →
      l.countP (fun q => q.1 == 0 && q.2 == 0)
        + l.countP (fun q => q.1 == 0 && q.2 == 1)
        + l.countP (fun q => q.1 == 1 && q.2 == 0)
        + l.countP (fun q => q.1 == 1 && q.2 == 1) = l.length := by
  intro l
  induction l with
  | nil => intro _ _; simp
  | cons a t ih =>
    intro h1 h2
    have ha1 := h1 a (by simp)
    have ha2 := h2 a (by simp)
    have iht := ih (fun q hq => h1 q (by simp [hq]))
      (fun q hq => h2 q (by simp [hq]))
    rcases ha1 with h|h <;> rcases ha2 with h'|h' <;>
      simp [List.countP_cons, h, h'] <;> omega

/-- When `(n : ℚ) * step = 1` (so `step` divides the unit interval
exactly), the numpy grid `arange(0, 1 + step, step)` is
`[0, step, 2*step, ..., n*step]`. -/
theorem arange_unit_grid (step : ℚ) (n : ℕ) (hpos : 0 < step)
    (hdiv : (n : ℚ) * step = 1) :
    arange 0 (1 + step) step
      = (List.range (n + 1)).map (fun k : ℕ => (k : ℚ) * step) := by
  unfold arange
  have hstep : step ≠ 0 := ne_of_gt hpos
  have hq : ((1 : ℚ) + step - 0) / step = (n : ℚ) + 1 := by
    field_simp
    linarith
  rw [hq]
  have hceil : ⌈(n : ℚ) + 1⌉ = (n : ℤ) + 1 := by
    rw [show ((n : ℚ) + 1) = ((n + 1 : ℕ) : ℚ) by push_cast; ring]
    rw [Int.ceil_natCast]
    push_cast
    ring
  rw [hceil]
  have htoNat : ((n : ℤ) + 1).toNat = n + 1 := by
    rw [show ((n : ℤ) + 1) = ((n + 1 : ℕ) : ℤ) by push_cast; ring]
    exact Int.toNat_natCast _
  rw [htoNat]
  apply List.map_congr_left
  intro k _
  ring

/-- For equal-length inputs every grid point evaluates successfully, so
the sweep returns one `sweep_row` per grid point, in grid order. -/
theorem sweep_ok_of_eq_length (y_true : List ℕ) (y_prob : List ℚ)
    (costs : CostConfig) (step : ℚ)
    (hlen : y_true.length = y_prob.length)
    (hlab : ∀ x ∈ y_true, x = 0 ∨ x = 1) :
    sweep_thresholds y_true y_prob costs step =
      .ok ((arange 0 (1 + step) step).map
        (sweep_row y_true y_prob costs)) := by
  unfold sweep_thresholds
  apply except_mapM_ok
  intro t
  rw [expected_value_ok y_true y_prob t costs hlen hlab]
  rfl

/-- The left fold of `pick_best` returns the first element of `r :: rs`
attaining the maximum expected value: the list splits around the result,
every element is bounded by it, and everything before it is strictly
below. -/
theorem foldl_pick_best_first_max :
    ∀ (rs : List ThresholdResult) (r : ThresholdResult),
      ∃ l₁ l₂,
        r :: rs = l₁ ++ (rs.foldl pick_best r) :: l₂ ∧
        (∀ x ∈ r :: rs,
          x.expected_value ≤ (rs.foldl pick_best r).expected_value) ∧
        (∀ x ∈ l₁,
          x.expected_value < (rs.foldl pick_best r).expected_value) := by
  intro rs
  induction rs with
  | nil =>
    intro r
    exact ⟨[], [], by simp, by simp, by simp⟩
  | cons x rs' ih =>
    intro r
    by_cases hcmp : r.expected_value < x.expected_value
    · obtain ⟨l₁, l₂, hsplit, hub, hstrict⟩ := ih x
      have hfold : (x :: rs').foldl pick_best r = rs'.foldl pick_best x := by
        rw [List.foldl_cons]
        unfold pick_best
        rw [if_pos hcmp]
      rw [hfold]
      have hxle : x.expected_value
          ≤ (rs'.foldl pick_best x).expected_value := hub x (by simp)
      refine ⟨r :: l₁, l₂, ?_, ?_, ?_⟩
      · rw [List.cons_append, ← hsplit]
      · intro y hy
        rcases List.mem_cons.mp hy with hy | hy
        · subst hy; exact le_of_lt (lt_of_lt_of_le hcmp hxle)
        · exact hub y hy
      · intro y hy
        rcases List.mem_cons.mp hy with hy | hy
        · subst hy; exact lt_of_lt_of_le hcmp hxle
        · exact hstrict y hy
    · obtain ⟨l₁, l₂, hsplit, hub, hstrict⟩ := ih r
      have hfold : (x :: rs').foldl pick_best r = rs'.foldl pick_best r := by
        rw [List.foldl_cons]
        unfold pick_best
        rw [if_neg hcmp]
      rw [hfold]
      have hxler : x.expected_value ≤ r.expected_value := not_lt.mp hcmp
      cases l₁ with
      | nil =>
        rw [List.nil_append] at hsplit
        injection hsplit with hb hl₂
        refine ⟨[], x :: rs', ?_, ?_, ?_⟩
        · rw [List.nil_append, ← hb]
        · intro y hy
          rcases List.mem_cons.mp hy with hy | hy
          · subst hy; rw [← hb]
          · rcases List.mem_cons.mp hy with hy | hy
            · subst hy; rw [← hb]; exact hxler
            · exact hub y (List.mem_cons.mpr (Or.inr hy))
        · intro y hy; exact absurd hy (List.not_mem_nil y)
      | cons hd t =>
        rw [List.cons_append] at hsplit
        injection hsplit with hhd hrs'
        have hrlt : r.expected_value
            < (rs'.foldl pick_best r).expected_value := by
          conv_lhs => rw [hhd]
          exact hstrict hd (by simp)
        refine ⟨r :: x :: t, l₂, ?_, ?_, ?_⟩
        · conv_lhs => rw [hrs']
          simp
        · intro y hy
          rcases List.mem_cons.mp hy with hy | hy
          · subst hy; exact le_of_lt hrlt
          · rcases List.mem_cons.mp hy with hy | hy
            · subst hy; exact le_trans hxler (le_of_lt hrlt)
            · exact hub y (List.mem_cons.mpr (Or.inr hy))
        · intro y hy
          rcases List.mem_cons.mp hy with hy | hy
          · subst hy; exact hrlt
          · rcases List.mem_cons.mp hy with hy | hy
            · subst hy; exact lt_of_le_of_lt hxler hrlt
            · exact hstrict y (List.mem_cons.mpr (Or.inr hy))

/-! ### Claims -/

/-- C1: for equal-length `y_true` and `y_prob`, any threshold and costs,
`expected_value_for_threshold` binarizes predictions as `predicted = 1` iff
`y_prob[i] >= thr`, counts the four confusion cells over both classes
(an absent class just contributes zero counts, so a single-class batch
still succeeds), and returns
`-(tp*TP_intervention_cost + fp*FP_cost + fn*FN_cost + tn*TN_cost)`. -/
theorem evaluator_spec (y_true : List ℕ) (y_prob : List ℚ) (thr : ℚ)
    (costs : CostConfig) (hlen : y_true.length = y_prob.length)
    (hval : ∀ x ∈ y_true, x = 0 ∨ x = 1) :
    expected_value_for_threshold y_true y_prob thr costs =
      .ok (-((count_outcome y_true y_prob thr 1 true : ℚ)
              * costs.TP_intervention_cost
            + (count_outcome y_true y_prob thr 0 true : ℚ) * costs.FP_cost
            + (count_outcome y_true y_prob thr 1 false : ℚ) * costs.FN_cost
            + (count_outcome y_true y_prob thr 0 false : ℚ) * costs.TN_cost),
           (count_outcome y_true y_prob thr 0 false,
            count_outcome y_true y_prob thr 0 true,
            count_outcome y_true y_prob thr 1 false,
            count_outcome y_true y_prob thr 1 true)) := by
  have htn := countP_zip_binarize (fun x => if x ≥ thr then 1 else 0)
    (fun a v => a == 0 && v == 0)
    (fun a x => a == 0 && (decide (thr ≤ x) == false))
    (by intro a x; by_cases hx : thr ≤ x <;> simp [hx, ge_iff_le])
    y_true y_prob hlen
  have hfp := countP_zip_binarize (fun x => if x ≥ thr then 1 else 0)
    (fun a v => a == 0 && v == 1)
    (fun a x => a == 0 && (decide (thr ≤ x) == true))
    (by intro a x; by_cases hx : thr ≤ x <;> simp [hx, ge_iff_le])
    y_true y_prob hlen
  have hfn := countP_zip_binarize (fun x => if x ≥ thr then 1 else 0)
    (fun a v => a == 1 && v == 0)
    (fun a x => a == 1 && (decide (thr ≤ x) == false))
    (by intro a x; by_cases hx : thr ≤ x <;> simp [hx, ge_iff_le])
    y_true y_prob hlen
  have htp := countP_zip_binarize (fun x => if x ≥ thr then 1 else 0)
    (fun a v => a == 1 && v == 1)
    (fun a x => a == 1 && (decide (thr ≤ x) == true))
    (by intro a x; by_cases hx : thr ≤ x <;> simp [hx, ge_iff_le])
    y_true y_prob hlen
  rw [expected_value_ok y_true y_prob thr costs hlen hval]
  simp only [evaluate, confusion_counts]
  simp only [htn, hfp, hfn, htp, count_outcome]

/-- C1 witness: the concrete scenario `y_true = [0,0,1,1]`,
`y_prob = [0.1, 0.2, 0.8, 0.9]`, `thr = 0.5`, default costs gives counts
`(tn, fp, fn, tp) = (2, 0, 0, 2)` and expected value `-1`. -/
theorem evaluator_spec_witness :
    (([0, 0, 1, 1] : List ℕ).length
        = ([1/10, 2/10, 8/10, 9/10] : List ℚ).length) ∧
    expected_value_for_threshold [0, 0, 1, 1] [1/10, 2/10, 8/10, 9/10]
      (1/2) {} = .ok (-1, (2, 0, 0, 2)) := by
  refine ⟨rfl, ?_⟩
  have h := evaluator_spec [0, 0, 1, 1] [1/10, 2/10, 8/10, 9/10] (1/2) {}
    rfl (by decide)
  rw [h]
  norm_num [count_outcome, List.range_succ]

/-- C2: `decide_single_threshold` returns action "intervene" iff
`p >= thr` (the tie `p = thr` intervenes), with ev
`-TP_intervention_cost` on "intervene" and `0` on "no_action". -/
theorem decide_single_threshold_spec (p thr : ℚ) (costs : CostConfig) :
    ((decide_single_threshold p thr costs).action = "intervene" ↔ thr ≤ p) ∧
    ((decide_single_threshold p thr costs).action = "no_action" ↔
      ¬ thr ≤ p) ∧
    (thr ≤ p → (decide_single_threshold p thr costs).ev
      = -costs.TP_intervention_cost) ∧
    (¬ thr ≤ p → (decide_single_threshold p thr costs).ev = 0) := by
  by_cases h : thr ≤ p <;>
    simp [decide_single_threshold, unit_expected_value_intervene,
      unit_expected_value_no_action, h, ge_iff_le]

/-- C2 witness: at the tie `p = thr = 0.6` the action is "intervene" with
ev `-0.5`; below the threshold the action is "no_action". -/
theorem decide_single_threshold_spec_witness :
    ((decide_single_threshold (3/5) (3/5) {}).action = "intervene" ∧
      (decide_single_threshold (3/5) (3/5) {}).ev = -(1/2 : ℚ)) ∧
    (decide_single_threshold (2/10) (3/5) {}).action = "no_action" := by
  refine ⟨⟨((decide_single_threshold_spec (3/5) (3/5) {}).1).mpr (by norm_num),
    ?_⟩, ((decide_single_threshold_spec (2/10) (3/5) {}).2.1).mpr
      (by norm_num)⟩
  have h := ((decide_single_threshold_spec (3/5) (3/5) {}).2.2.1)
    (by norm_num)
  simpa using h

/-- C7: for equal-length inputs with labels in `{0, 1}`, the four confusion
counts returned by the evaluator partition the sample:
`tn + fp + fn + tp = len(y_true)`. -/
theorem confusion_counts_partition (y_true : List ℕ) (y_prob : List ℚ)
    (thr : ℚ) (costs : CostConfig) (hlen : y_true.length = y_prob.length)
    (hval : ∀ x ∈ y_true, x = 0 ∨ x = 1) :
    ∃ r, expected_value_for_threshold y_true y_prob thr costs = .ok r ∧
      r.2.1 + r.2.2.1 + r.2.2.2.1 + r.2.2.2.2 = y_true.length := by
  refine ⟨evaluate y_true y_prob thr costs,
    expected_value_ok y_true y_prob thr costs hlen hval, ?_⟩
  simp only [evaluate, confusion_counts]
  have hmem1 : ∀ q ∈ y_true.zip (y_prob.map
      (fun p => if p ≥ thr then 1 else 0)), q.1 = 0 ∨ q.1 = 1 := by
    intro q hq
    exact hval q.1 (List.of_mem_zip hq).1
  have hmem2 : ∀ q ∈ y_true.zip (y_prob.map
      (fun p => if p ≥ thr then 1 else 0)), q.2 = 0 ∨ q.2 = 1 := by
    intro q hq
    have h2 := (List.of_mem_zip hq).2
    rcases List.mem_map.mp h2 with ⟨x, _, hx⟩
    by_cases hcmp : x ≥ thr
    · right; rw [← hx]; simp [hcmp]
    · left; rw [← hx]; simp [hcmp]
  rw [countP_pairs_partition _ hmem1 hmem2]
  simp [List.length_zip, hlen]

/-- C7 witness: the partition at the concrete scenario of §8. -/
theorem confusion_counts_partition_witness :
    (([0, 0, 1, 1] : List ℕ).length
        = ([1/10, 2/10, 8/10, 9/10] : List ℚ).length) ∧
    (∀ x ∈ ([0, 0, 1, 1] : List ℕ), x = 0 ∨ x = 1) ∧
    ∃ r, expected_value_for_threshold [0, 0, 1, 1] [1/10, 2/10, 8/10, 9/10]
        (1/2) {} = .ok r ∧
      r.2.1 + r.2.2.1 + r.2.2.2.1 + r.2.2.2.2
        = ([0, 0, 1, 1] : List ℕ).length :=
  ⟨rfl, by decide,
    confusion_counts_partition [0, 0, 1, 1] [1/10, 2/10, 8/10, 9/10]
      (1/2) {} rfl (by decide)⟩

/-- C8: `apply_decision_batch` is the element-wise, order-preserving
application of `decide_single_threshold` with the same threshold, costs and
closed-lower-bound tie-break; the concrete batch `[0.1, 0.7]` at
`thr = 0.5` yields actions `["no_action", "intervene"]` in order. -/
theorem apply_decision_batch_refines_single (probs : List ℚ) (thr : ℚ)
    (costs : CostConfig) :
    apply_decision_batch probs thr costs =
      probs.map (fun p => (p, (decide_single_threshold p thr costs).action,
        (decide_single_threshold p thr costs).ev)) ∧
    apply_decision_batch [1/10, 7/10] (1/2) {} =
      [(1/10, "no_action", 0), (7/10, "intervene", -(1/2))] := by
  constructor
  · unfold apply_decision_batch
    refine List.map_congr_left (fun p _ => ?_)
    by_cases h : thr ≤ p <;>
      simp [decide_single_threshold, unit_expected_value_intervene,
        unit_expected_value_no_action, h, ge_iff_le]
  · norm_num [apply_decision_batch]

/-- C9: `CostConfig.from_dict` round-trips the persisted mapping form
field-for-field, ignores unknown extra keys, and fills every missing key
with its default, so the empty mapping loads as the default config. -/
theorem cost_config_roundtrip (c : CostConfig)
    (extra : List (String × ℚ)) :
    CostConfig.from_dict c.toDict = c ∧
    CostConfig.from_dict (c.toDict ++ extra) = c ∧
    CostConfig.from_dict [] =
      { FN_cost := 5, FP_cost := 1, TP_intervention_cost := 1/2,
        TN_cost := 0 } ∧
    CostConfig.from_dict [] = ({} : CostConfig) := by
  cases c
  refine ⟨?_, ?_, ?_, ?_⟩ <;>
    simp [CostConfig.from_dict, CostConfig.toDict, List.lookup]

/-- C10: `decide_tiered` tests `t_high` first: "expensive_intervention"
(ev `-costs_high.TP_intervention_cost`) iff `p >= t_high`, else
"cheap_intervention" (ev `-costs_low.TP_intervention_cost`) iff
`p >= t_low`, else "no_action" (ev 0) — also when `t_low > t_high`, where
`t_high <= p < t_low` therefore yields "expensive_intervention". -/
theorem decide_tiered_spec (p t_low t_high : ℚ)
    (costs_low costs_high : CostConfig) :
    ((decide_tiered p t_low t_high costs_low costs_high).action
        = "expensive_intervention" ↔ t_high ≤ p) ∧
    ((decide_tiered p t_low t_high costs_low costs_high).action
        = "cheap_intervention" ↔ ¬ t_high ≤ p ∧ t_low ≤ p) ∧
    ((decide_tiered p t_low t_high costs_low costs_high).action
        = "no_action" ↔ ¬ t_high ≤ p ∧ ¬ t_low ≤ p) ∧
    (t_high ≤ p → (decide_tiered p t_low t_high costs_low costs_high).ev
      = -costs_high.TP_intervention_cost) ∧
    (¬ t_high ≤ p → t_low ≤ p →
      (decide_tiered p t_low t_high costs_low costs_high).ev
        = -costs_low.TP_intervention_cost) ∧
    (¬ t_high ≤ p → ¬ t_low ≤ p →
      (decide_tiered p t_low t_high costs_low costs_high).ev = 0) := by
  by_cases h1 : t_high ≤ p <;> by_cases h2 : t_low ≤ p <;>
    simp [decide_tiered, unit_expected_value_intervene,
      unit_expected_value_no_action, h1, h2, ge_iff_le]

/-- C10 witness: with unordered tiers `t_low = 0.75 > t_high = 0.25` and
`p = 0.5` in between, the code answers "expensive_intervention". -/
theorem decide_tiered_spec_witness :
    (decide_tiered (1/2) (3/4) (1/4) {} {}).action
      = "expensive_intervention" ∧
    (decide_tiered (1/10) (3/4) (1/4) {} {}).action = "no_action" :=
  ⟨((decide_tiered_spec (1/2) (3/4) (1/4) {} {}).1).mpr (by norm_num),
    ((decide_tiered_spec (1/10) (3/4) (1/4) {} {}).2.2.1).mpr
      (by constructor <;> norm_num)⟩

/-- C6 counterexample: the claim's boundary counts are the wrong cells.
At `thr = 0` with `y_true = [0]`, `y_prob = [0.5]` the single sample is
predicted positive, so `fp = 1 ≠ 0` (the claim demands `tn = fp = 0`); at
`thr = 0.6` beyond the maximum probability with `y_true = [1]` the sample
is predicted negative, so `fn = 1 ≠ 0` (the claim demands `fn = tp = 0`). -/
theorem boundary_counts_counterexample :
    expected_value_for_threshold [0] [1/2] 0 {} = .ok (-1, (0, 1, 0, 0)) ∧
    expected_value_for_threshold [1] [1/2] (3/5) {}
      = .ok (-5, (0, 0, 1, 0)) := by
  constructor <;>
    norm_num [expected_value_for_threshold, evaluate, confusion_counts,
      List.countP_cons]

/-- C6 amended: for equal-length inputs, at `thr = 0` (probabilities being
nonnegative) every sample is predicted as churn so `tn = fn = 0`, and at a
threshold strictly beyond the maximum probability every sample is predicted
as no-churn so `fp = tp = 0`. -/
theorem boundary_thresholds_force_counts (y_true : List ℕ)
    (y_prob : List ℚ) (thr : ℚ) (costs : CostConfig)
    (hlen : y_true.length = y_prob.length)
    (hlab : ∀ x ∈ y_true, x = 0 ∨ x = 1) :
    ((∀ p ∈ y_prob, (0 : ℚ) ≤ p) →
      ∃ r, expected_value_for_threshold y_true y_prob 0 costs = .ok r ∧
        r.2.1 = 0 ∧ r.2.2.2.1 = 0) ∧
    ((∀ p ∈ y_prob, p < thr) →
      ∃ r, expected_value_for_threshold y_true y_prob thr costs = .ok r ∧
        r.2.2.1 = 0 ∧ r.2.2.2.2 = 0) := by
  constructor
  · intro hp
    refine ⟨evaluate y_true y_prob 0 costs,
      expected_value_ok y_true y_prob 0 costs hlen hlab, ?_, ?_⟩ <;>
    · simp only [evaluate, confusion_counts]
      rw [List.countP_eq_zero]
      intro q hq
      have h2 := (List.of_mem_zip hq).2
      rcases List.mem_map.mp h2 with ⟨x, hx_mem, hx⟩
      have : q.2 = 1 := by rw [← hx]; simp [hp x hx_mem, ge_iff_le]
      simp [this]
  · intro hp
    refine ⟨evaluate y_true y_prob thr costs,
      expected_value_ok y_true y_prob thr costs hlen hlab, ?_, ?_⟩ <;>
    · simp only [evaluate, confusion_counts]
      rw [List.countP_eq_zero]
      intro q hq
      have h2 := (List.of_mem_zip hq).2
      rcases List.mem_map.mp h2 with ⟨x, hx_mem, hx⟩
      have hlt : ¬ thr ≤ x := not_le.mpr (hp x hx_mem)
      have : q.2 = 0 := by rw [← hx]; simp [hlt, ge_iff_le]
      simp [this]

/-- C6 amended witness: at the §8 scenario, `thr = 0` gives `tn = fn = 0`
and `thr = 0.95` (beyond the maximum probability 0.9) gives
`fp = tp = 0`. -/
theorem boundary_thresholds_force_counts_witness :
    (([0, 0, 1, 1] : List ℕ).length
        = ([1/10, 2/10, 8/10, 9/10] : List ℚ).length) ∧
    ((∀ p ∈ ([1/10, 2/10, 8/10, 9/10] : List ℚ), (0 : ℚ) ≤ p) →
      ∃ r, expected_value_for_threshold [0, 0, 1, 1]
          [1/10, 2/10, 8/10, 9/10] 0 {} = .ok r ∧
        r.2.1 = 0 ∧ r.2.2.2.1 = 0) ∧
    ((∀ p ∈ ([1/10, 2/10, 8/10, 9/10] : List ℚ), p < 19/20) →
      ∃ r, expected_value_for_threshold [0, 0, 1, 1]
          [1/10, 2/10, 8/10, 9/10] (19/20) {} = .ok r ∧
        r.2.2.1 = 0 ∧ r.2.2.2.2 = 0) ∧
    (∀ p ∈ ([1/10, 2/10, 8/10, 9/10] : List ℚ), (0 : ℚ) ≤ p) ∧
    (∀ p ∈ ([1/10, 2/10, 8/10, 9/10] : List ℚ), p < 19/20) := by
  have h := boundary_thresholds_force_counts [0, 0, 1, 1]
    [1/10, 2/10, 8/10, 9/10] (19/20) {} rfl (by decide)
  exact ⟨rfl, h.1, h.2, by norm_num, by norm_num⟩

/-- C3 counterexample: the sweep grid need not stay within `[0, 1]` nor
have `floor(1/step) + 1` rows.  With `step = 0.3` the grid
`arange(0.0, 1.3, 0.3)` has 5 rows (but `floor(1/0.3) + 1 = 4`) and its
last threshold is `1.2 > 1`. -/
theorem sweep_grid_counterexample :
    (sweep_thresholds [0] [1/2] {} (3/10)).map
        (fun c => c.map ThresholdResult.threshold)
      = .ok [0, 3/10, 3/5, 9/10, 6/5] ∧
    (sweep_thresholds [0] [1/2] {} (3/10)).map List.length = .ok 5 ∧
    ¬ ((6 : ℚ)/5 ≤ 1) ∧
    ⌊(1 : ℚ) / (3/10)⌋.toNat + 1 = 4 := by
  have harange : arange 0 (1 + 3/10) (3/10) = [0, 3/10, 3/5, 9/10, 6/5] := by
    unfold arange
    have hceil : (⌈((1:ℚ) + 3/10 - 0) / (3/10)⌉) = 5 := by
      rw [Int.ceil_eq_iff]
      constructor <;> norm_num
    rw [hceil]
    have h5 : (5 : ℤ).toNat = 5 := rfl
    rw [h5]
    norm_num [List.range_succ]
  have hsweep := sweep_ok_of_eq_length [0] [1/2] {} (3/10) rfl (by decide)
  rw [hsweep, harange]
  refine ⟨?_, ?_, by norm_num, ?_⟩
  · norm_num [Except.map, List.map_map, Function.comp, sweep_row]
  · norm_num [Except.map]
  · have hfloor : ⌊(1 : ℚ) / (3/10)⌋ = 3 := by norm_num
    rw [hfloor]
    rfl

/-- C3 amended: for a positive step that divides the unit interval
exactly (`n * step = 1`, e.g. `step = 0.005` with `n = 200`), the sweep
curve's threshold grid is `0, step, ..., 1`: it has
`floor(1/step) + 1 = n + 1` rows, strictly ascending thresholds, no
duplicates, all within `[0, 1]`, starting at 0 and ending at 1.  (For a
step that does not divide 1 the grid keeps `floor(1/step) + 2` points and
overshoots 1, see the counterexample.) -/
theorem sweep_grid_spec (y_true : List ℕ) (y_prob : List ℚ)
    (costs : CostConfig) (step : ℚ) (n : ℕ)
    (hlen : y_true.length = y_prob.length)
    (hlab : ∀ x ∈ y_true, x = 0 ∨ x = 1) (hpos : 0 < step)
    (hdiv : (n : ℚ) * step = 1) :
    ∃ curve, sweep_thresholds y_true y_prob costs step = .ok curve ∧
      curve.map ThresholdResult.threshold
        = (List.range (n + 1)).map (fun k : ℕ => (k : ℚ) * step) ∧
      curve.length = n + 1 ∧
      curve.length = ⌊(1 : ℚ) / step⌋.toNat + 1 ∧
      (curve.map ThresholdResult.threshold).Pairwise (· < ·) ∧
      (curve.map ThresholdResult.threshold).Nodup ∧
      (∀ t ∈ curve.map ThresholdResult.threshold, 0 ≤ t ∧ t ≤ 1) ∧
      (curve.map ThresholdResult.threshold).head? = some 0 ∧
      (curve.map ThresholdResult.threshold).getLast? = some 1 := by
  have harange := arange_unit_grid step n hpos hdiv
  have hsweep := sweep_ok_of_eq_length y_true y_prob costs step hlen hlab
  have hproj : ((arange 0 (1 + step) step).map
        (sweep_row y_true y_prob costs)).map ThresholdResult.threshold
      = arange 0 (1 + step) step := by
    rw [List.map_map]
    have hid : (ThresholdResult.threshold ∘ sweep_row y_true y_prob costs)
        = fun t => t := by
      funext t
      rfl
    rw [hid]
    exact List.map_id _
  have hfloorn : ⌊(1 : ℚ) / step⌋.toNat = n := by
    have hq : (1 : ℚ) / step = (n : ℚ) := by
      field_simp
      linarith
    rw [hq, Int.floor_natCast, Int.toNat_natCast]
  have hpair : ((List.range (n + 1)).map
      (fun k : ℕ => (k : ℚ) * step)).Pairwise (fun a b => a < b) := by
    refine List.Pairwise.map _ ?_ (List.pairwise_lt_range (n + 1))
    intro a b hab
    exact mul_lt_mul_of_pos_right (by exact_mod_cast hab) hpos
  refine ⟨(arange 0 (1 + step) step).map (sweep_row y_true y_prob costs),
    hsweep, by rw [hproj, harange], ?_, ?_, ?_, ?_, ?_, ?_, ?_⟩
  · rw [List.length_map, harange, List.length_map, List.length_range]
  · rw [List.length_map, harange, List.length_map, List.length_range,
      hfloorn]
  · rw [hproj, harange]
    exact hpair
  · rw [hproj, harange]
    exact hpair.imp ne_of_lt
  · rw [hproj, harange]
    intro t ht
    rcases List.mem_map.mp ht with ⟨k, hk, rfl⟩
    have hkn : k ≤ n := Nat.lt_succ_iff.mp (List.mem_range.mp hk)
    constructor
    · exact mul_nonneg (Nat.cast_nonneg k) hpos.le
    · calc (k : ℚ) * step ≤ (n : ℚ) * step :=
          mul_le_mul_of_nonneg_right (by exact_mod_cast hkn) hpos.le
        _ = 1 := hdiv
  · rw [hproj, harange, List.range_succ_eq_map, List.map_cons]
    simp
  · rw [hproj, harange, List.range_succ, List.map_append]
    have hsing : List.map (fun k : ℕ => (k : ℚ) * step) [n]
        = [(n : ℚ) * step] := rfl
    rw [hsing, List.getLast?_concat, hdiv]

/-- C3 amended witness: `step = 0.5` divides the unit interval with
`n = 2`, giving the 3-row grid `[0, 0.5, 1]`. -/
theorem sweep_grid_spec_witness :
    (([0] : List ℕ).length = ([1/2] : List ℚ).length) ∧
    (0 : ℚ) < 1/2 ∧ ((2 : ℕ) : ℚ) * (1/2) = 1 ∧
    ∃ curve, sweep_thresholds [0] [1/2] {} (1/2) = .ok curve ∧
      curve.map ThresholdResult.threshold
        = (List.range (2 + 1)).map (fun k : ℕ => (k : ℚ) * (1/2)) ∧
      curve.length = 2 + 1 ∧
      curve.length = ⌊(1 : ℚ) / (1/2)⌋.toNat + 1 ∧
      (curve.map ThresholdResult.threshold).Pairwise (· < ·) ∧
      (curve.map ThresholdResult.threshold).Nodup ∧
      (∀ t ∈ curve.map ThresholdResult.threshold, 0 ≤ t ∧ t ≤ 1) ∧
      (curve.map ThresholdResult.threshold).head? = some 0 ∧
      (curve.map ThresholdResult.threshold).getLast? = some 1 :=
  ⟨rfl, by norm_num, by norm_num,
    sweep_grid_spec [0] [1/2] {} (1/2) 2 rfl (by decide) (by norm_num)
      (by norm_num)⟩

/-- C4: on every non-empty curve, `choose_optimal_threshold` returns a row
whose expected value bounds every row of the curve, and it is the first
such row in curve order (which for a sweep output is ascending-threshold
order): everything strictly before it in the curve has strictly smaller
expected value.  The function is pure, hence deterministic across repeated
runs on identical inputs. -/
theorem choose_optimal_threshold_spec (curve : List ThresholdResult)
    (h : curve ≠ []) :
    ∃ best l₁ l₂, choose_optimal_threshold curve = .ok best ∧
      curve = l₁ ++ best :: l₂ ∧
      (∀ x ∈ curve, x.expected_value ≤ best.expected_value) ∧
      (∀ x ∈ l₁, x.expected_value < best.expected_value) := by
  cases curve with
  | nil => exact absurd rfl h
  | cons r rs =>
    obtain ⟨l₁, l₂, hsplit, hub, hstrict⟩ := foldl_pick_best_first_max rs r
    exact ⟨rs.foldl pick_best r, l₁, l₂, rfl, hsplit, hub, hstrict⟩

/-- C4 witness: on a two-row curve whose rows tie at expected value 5, the
selector returns the first row (threshold 0), the stable argmax. -/
theorem choose_optimal_threshold_spec_witness :
    (([⟨0, 5, 0, 0, 0, 0⟩, ⟨1/2, 5, 0, 0, 0, 0⟩] :
        List ThresholdResult) ≠ []) ∧
    (∃ best l₁ l₂,
      choose_optimal_threshold
          [⟨0, 5, 0, 0, 0, 0⟩, ⟨1/2, 5, 0, 0, 0, 0⟩] = .ok best ∧
      ([⟨0, 5, 0, 0, 0, 0⟩, ⟨1/2, 5, 0, 0, 0, 0⟩] :
          List ThresholdResult) = l₁ ++ best :: l₂ ∧
      (∀ x ∈ ([⟨0, 5, 0, 0, 0, 0⟩, ⟨1/2, 5, 0, 0, 0, 0⟩] :
          List ThresholdResult),
        x.expected_value ≤ best.expected_value) ∧
      (∀ x ∈ l₁, x.expected_value < best.expected_value)) ∧
    choose_optimal_threshold [⟨0, 5, 0, 0, 0, 0⟩, ⟨1/2, 5, 0, 0, 0, 0⟩]
      = .ok ⟨0, 5, 0, 0, 0, 0⟩ :=
  ⟨by simp, choose_optimal_threshold_spec _ (by simp), by
    norm_num [choose_optimal_threshold, pick_best]⟩

/-- C5 counterexample: sweeping an empty dataset does not fail fast.
With `y_true = y_prob = []` and `step = 0.5` the sweep silently returns a
full three-row curve whose confusion counts are all zero and whose
expected values are all 0 (sklearn's empty-input branch returns the zero
confusion matrix), and selecting from it silently returns the degenerate
row at threshold 0 instead of raising. -/
theorem sweep_empty_dataset_counterexample :
    sweep_thresholds [] [] {} (1/2) =
      .ok [⟨0, 0, 0, 0, 0, 0⟩, ⟨1/2, 0, 0, 0, 0, 0⟩, ⟨1, 0, 0, 0, 0, 0⟩] ∧
    choose_optimal_threshold
        [⟨0, 0, 0, 0, 0, 0⟩, ⟨1/2, 0, 0, 0, 0, 0⟩, ⟨1, 0, 0, 0, 0, 0⟩]
      = .ok ⟨0, 0, 0, 0, 0, 0⟩ := by
  constructor
  · have hsweep := sweep_ok_of_eq_length [] [] {} (1/2) rfl
      (by intro x hx; exact absurd hx (List.not_mem_nil x))
    have harange := arange_unit_grid (1/2) 2 (by norm_num) (by norm_num)
    rw [hsweep, harange]
    norm_num [List.range_succ, sweep_row, evaluate, confusion_counts]
  · norm_num [choose_optimal_threshold, pick_best]

/-- C5 amended: selecting the optimum from a zero-row curve raises the
descriptive error "df_curve is empty", and a grid with zero points (a
negative step in `(-1, 0)` makes `arange` empty) propagates to that same
failure; but an empty *dataset* is not rejected — see the
counterexample. -/
theorem empty_curve_selection_fails (curve : List ThresholdResult)
    (y_true : List ℕ) (y_prob : List ℚ) (costs : CostConfig) (step : ℚ)
    (h1 : -1 < step) (h2 : step < 0) :
    choose_optimal_threshold [] = .error "df_curve is empty" ∧
    (curve = [] →
      choose_optimal_threshold curve = .error "df_curve is empty") ∧
    sweep_thresholds y_true y_prob costs step = .ok [] ∧
    (sweep_thresholds y_true y_prob costs step).bind
        choose_optimal_threshold = .error "df_curve is empty" := by
  have hgrid : arange 0 (1 + step) step = [] := by
    unfold arange
    have hneg : ((1 : ℚ) + step - 0) / step < 0 := by
      apply div_neg_of_pos_of_neg
      · linarith
      · exact h2
    have hceil : ⌈((1 : ℚ) + step - 0) / step⌉ ≤ 0 := by
      rw [Int.ceil_le]
      push_cast
      linarith
    rw [Int.toNat_of_nonpos hceil]
    rfl
  have hsweep : sweep_thresholds y_true y_prob costs step = .ok [] := by
    unfold sweep_thresholds
    rw [hgrid]
    rfl
  refine ⟨rfl, ?_, hsweep, ?_⟩
  · intro hc
    rw [hc]
    rfl
  · rw [hsweep]
    rfl

/-- C5 amended witness: at `step = -1/2` the grid is empty and selection
on the empty curve raises. -/
theorem empty_curve_selection_fails_witness :
    ((-1 : ℚ) < -1/2) ∧ ((-1/2 : ℚ) < 0) ∧
    (choose_optimal_threshold [] = .error "df_curve is empty" ∧
      (([] : List ThresholdResult) = [] →
        choose_optimal_threshold [] = .error "df_curve is empty") ∧
      sweep_thresholds [0] [1/2] {} (-1/2) = .ok [] ∧
      (sweep_thresholds [0] [1/2] {} (-1/2)).bind
          choose_optimal_threshold = .error "df_curve is empty") :=
  ⟨by norm_num, by norm_num,
    empty_curve_selection_fails [] [0] [1/2] {} (-1/2)
      (by norm_num) (by norm_num)⟩

end ChurnEV
